import Mathlib

/-!
# Verification of the connection facade of `ws` (`conn.go`)

A shallow embedding of `Conn.Read`, `Conn.ReadMessage`, `Conn.Write` and
`Conn.SetMessageMode`.

Modelling conventions.

* A Go `[]byte` is a `List Byte`; a call that writes into a caller's buffer
  returns the buffer as it stands after the call.
* A Go `error` is an `Option GoError`, `none` being `nil`.
* There are two levels.  At the value level (`Ws.Conn`) a message carries its
  payload bytes and a channel is the FIFO list of the messages handed to it and
  not yet received, oldest first; a receive on an empty channel blocks: the
  operation has no result (`none`).  `Ws.Conn.Write` at this level is what a
  `Write` whose send has completed leaves and returns.
* At the memory level (`Ws.Mem`) a byte slice is a slice header into a memory
  of backing arrays, as in Go, and a channel is nil or made, has a capacity, a
  buffer and a closed flag.  `Ws.Mem.Conn.Write` is the whole of `Conn.Write`:
  it returns, blocks or panics as the send on the outbox does, and the message
  it queues holds the slice header of the caller, not a copy of the bytes.
  No goroutine other than the caller runs: a send that finds neither room in
  the buffer nor a channel to send on is blocked.
* Go's `int` and `time.Duration` are `Int`; none of the embedded code does
  arithmetic on them.
* `Conn.Close` is a `select` between a send on `closeSignal` and a 30-second
  timer; its outcome is decided by concurrent receivers and by elapsed time, and
  it is not embedded.
-/

namespace Ws

/-- A byte of a Go byte slice. -/
abbrev Byte := Fin 256

/-- The constant `websocket.TextMessage` of gorilla/websocket (RFC 6455 opcode 1). -/
def TextMessage : Int := 1

/-- The constant `websocket.BinaryMessage` of gorilla/websocket (RFC 6455 opcode 2). -/
def BinaryMessage : Int := 2

/-- ModeBinary causes Conn.Write to write binary messages. -/
def ModeBinary : Int := BinaryMessage

/-- ModeText causes Conn.Write to write text messages. -/
def ModeText : Int := TextMessage

/-- The Go errors the facade can return. -/
inductive GoError where
  /-- The sentinel `io.EOF`. -/
  | EOF
  /-- An error made by `errors.New text`. -/
  | New (text : String)
deriving DecidableEq, Repr

/-- The struct `message` of `conn.go`. -/
structure message where
  content : List Byte
  isBinary : Bool
deriving DecidableEq, Repr

/-- The struct `Conn` of `conn.go`.  The socket handle `Conn *websocket.Conn` is
the identifier `socket` (a field cannot bear the name of its structure); the
three channels are FIFO lists. -/
structure Conn where
  socket : Nat
  ResponseHeader : List (String × List String)
  PingInterval : Int
  PongTimeout : Int
  MaxMessageSize : Int
  WriteTimeout : Int
  messageMode : Int
  outbox : List message
  inbox : List message
  closeSignal : List Bool
deriving DecidableEq, Repr

/-- Go's builtin `copy(dst, src)`: overwrites the first `min (len dst) (len src)`
elements of `dst` with those of `src` and returns that count. -/
def copy (dst src : List Byte) : List Byte × Nat :=
  let n := min dst.length src.length
  (src.take n ++ dst.drop n, n)

/-- The struct `bytes.Reader` of the Go standard library: the slice and the
current reading index. -/
structure Reader where
  s : List Byte
  i : Nat
deriving DecidableEq, Repr

/-- The function `bytes.NewReader`. -/
def NewReader (b : List Byte) : Reader := ⟨b, 0⟩

/-- What `bytes.Reader.Read` leaves and returns: the reader, the buffer, `n` and `err`. -/
structure ReaderOut where
  r : Reader
  b : List Byte
  n : Nat
  err : Option GoError
deriving DecidableEq, Repr

/-- The method `bytes.Reader.Read` of the Go standard library:
`if r.i >= len(r.s) { return 0, io.EOF }; n = copy(b, r.s[r.i:]); r.i += n; return`. -/
def Reader.Read (r : Reader) (b : List Byte) : ReaderOut :=
  if r.i ≥ r.s.length then
    ⟨r, b, 0, some GoError.EOF⟩
  else
    let out := copy b (r.s.drop r.i)
    ⟨{ r with i := r.i + out.2 }, out.1, out.2, none⟩

/-- What `Conn.Read` leaves and returns. -/
structure ReadOut where
  conn : Conn
  p : List Byte
  bytesRead : Nat
  err : Option GoError
deriving DecidableEq, Repr

/-- What `Conn.ReadMessage` leaves and returns. -/
structure ReadMessageOut where
  conn : Conn
  p : List Byte
  bytesRead : Nat
  isBinary : Bool
  err : Option GoError
deriving DecidableEq, Repr

/-- The method `Conn.Read`: receive a message from the inbox (blocking, `none`,
while it is empty) and read it through a fresh `bytes.Reader`. -/
def Conn.Read (c : Conn) (p : List Byte) : Option ReadOut :=
  match c.inbox with
  | [] => none
  | msg :: rest =>
    let out := (NewReader msg.content).Read p
    some ⟨{ c with inbox := rest }, out.b, out.n, out.err⟩

/-- The method `Conn.ReadMessage`: as `Read`, and `isBinary` is assigned from
the message only when the reader returned no error; otherwise it keeps the
zero value `false` of the named result. -/
def Conn.ReadMessage (c : Conn) (p : List Byte) : Option ReadMessageOut :=
  match c.inbox with
  | [] => none
  | msg :: rest =>
    let out := (NewReader msg.content).Read p
    if out.err ≠ none then
      some ⟨{ c with inbox := rest }, out.b, out.n, false, out.err⟩
    else
      some ⟨{ c with inbox := rest }, out.b, out.n, msg.isBinary, out.err⟩

/-- What `Conn.Write` leaves and returns. -/
structure WriteOut where
  conn : Conn
  n : Nat
  err : Option GoError
deriving DecidableEq, Repr

/-- The method `Conn.Write` at the value level, for a send that completes: build
`message{m, c.messageMode == websocket.BinaryMessage}`, the message joins the tail
of the outbox, return `len(m), nil`.  Whether the send completes, and the sharing
of the bytes of `m` with the caller, are in `Mem.Conn.Write`. -/
def Conn.Write (c : Conn) (m : List Byte) : WriteOut :=
  let out : message := ⟨m, c.messageMode == BinaryMessage⟩
  ⟨{ c with outbox := c.outbox ++ [out] }, m.length, none⟩

/-- The method `Conn.SetMessageMode`: an `m` other than the two modes is
logged and ignored. -/
def Conn.SetMessageMode (c : Conn) (m : Int) : Conn :=
  if m ≠ ModeBinary ∧ m ≠ ModeText then
    c
  else
    { c with messageMode := m }

/-- One receiving call of the application: `Read p` or `ReadMessage p`. -/
inductive RecvCall where
  | read (p : List Byte)
  | readMessage (p : List Byte)
deriving DecidableEq, Repr

/-- The buffer a receiving call passes. -/
def RecvCall.buf : RecvCall → List Byte
  | .read p => p
  | .readMessage p => p

/-- What a receiving call reports, whichever of the two methods it was. -/
structure RecvOut where
  p : List Byte
  bytesRead : Nat
  err : Option GoError
deriving DecidableEq, Repr

/-- Perform one receiving call. -/
def Conn.recv (c : Conn) : RecvCall → Option (Conn × RecvOut)
  | .read p => (c.Read p).map fun o => (o.conn, ⟨o.p, o.bytesRead, o.err⟩)
  | .readMessage p => (c.ReadMessage p).map fun o => (o.conn, ⟨o.p, o.bytesRead, o.err⟩)

/-- Perform receiving calls one after the other; `none` when one of them blocks. -/
def Conn.recvAll (c : Conn) : List RecvCall → Option (Conn × List RecvOut)
  | [] => some (c, [])
  | call :: calls =>
    match c.recv call with
    | none => none
    | some (c1, o) =>
      match c1.recvAll calls with
      | none => none
      | some (c2, os) => some (c2, o :: os)

/-- A connection for concrete evaluations: given mode and queues, other fields fixed. -/
def mkConn (mode : Int) (outbox inbox : List message) : Conn :=
  ⟨7, [], 0, 0, 0, 0, mode, outbox, inbox, []⟩

/-! ## The memory level: slices by reference, channels with capacity -/

namespace Mem

/-- A Go slice header: the backing array, the offset into it and the length
(the capacity of the slice plays no part in `conn.go`). -/
structure Slice where
  ptr : Nat
  off : Nat
  len : Nat
deriving DecidableEq, Repr

/-- The memory: the backing arrays, by address. -/
structure Heap where
  arrays : List (List Byte)
deriving DecidableEq, Repr

/-- The bytes a slice header denotes in a memory. -/
def Heap.load (h : Heap) (s : Slice) : List Byte :=
  ((h.arrays.getD s.ptr []).drop s.off).take s.len

/-- A slice header lies within its backing array. -/
def Heap.inBounds (h : Heap) (s : Slice) : Prop :=
  s.off + s.len ≤ (h.arrays.getD s.ptr []).length

/-- The assignment `s[i] = b` by the owner of a slice (no effect out of range). -/
def Heap.store (h : Heap) (s : Slice) (i : Nat) (b : Byte) : Heap :=
  if i < s.len then
    ⟨h.arrays.set s.ptr ((h.arrays.getD s.ptr []).set (s.off + i) b)⟩
  else
    h

/-- The struct `message` of `conn.go`, its `content []byte` a slice header. -/
structure message where
  content : Slice
  isBinary : Bool
deriving DecidableEq, Repr

/-- A Go channel: the nil channel or a made one, with its capacity, the elements
buffered (oldest first) and whether it has been closed. -/
structure Chan (α : Type) where
  isNil : Bool
  closed : Bool
  cap : Nat
  buf : List α
deriving DecidableEq, Repr

/-- How a call ends: it returns, it blocks, or it panics. -/
inductive Outcome (α : Type) where
  | returned (a : α)
  | blocked
  | panicked (text : String)
deriving DecidableEq, Repr

/-- The send statement `ch <- x`: it blocks forever on a nil channel, panics on a
closed one, buffers `x` at the tail when the buffer has room, and otherwise
blocks. -/
def Chan.send {α : Type} (ch : Chan α) (x : α) : Outcome (Chan α) :=
  if ch.isNil then
    Outcome.blocked
  else if ch.closed then
    Outcome.panicked "send on closed channel"
  else if ch.buf.length < ch.cap then
    Outcome.returned { ch with buf := ch.buf ++ [x] }
  else
    Outcome.blocked

/-- The struct `Conn` of `conn.go` with its three channels as channels. -/
structure Conn where
  socket : Nat
  ResponseHeader : List (String × List String)
  PingInterval : Int
  PongTimeout : Int
  MaxMessageSize : Int
  WriteTimeout : Int
  messageMode : Int
  outbox : Chan message
  inbox : Chan message
  closeSignal : Chan Bool
deriving DecidableEq, Repr

/-- What `Conn.Write` leaves and returns when it returns. -/
structure WriteOut where
  conn : Conn
  n : Nat
  err : Option GoError
deriving DecidableEq, Repr

/-- The method `Conn.Write`:
`out := &message{m, c.messageMode == websocket.BinaryMessage}; c.outbox <- out;
return len(m), nil`.  The message holds the slice header `m` itself. -/
def Conn.Write (c : Conn) (m : Slice) : Outcome WriteOut :=
  let out : message := ⟨m, c.messageMode == BinaryMessage⟩
  match c.outbox.send out with
  | Outcome.returned ch => Outcome.returned ⟨{ c with outbox := ch }, m.len, none⟩
  | Outcome.blocked => Outcome.blocked
  | Outcome.panicked text => Outcome.panicked text

/-- A sequence of `Write` calls by one caller, in call order; it gets no further
than the first call that does not return. -/
def Conn.writeAll (c : Conn) : List Slice → Outcome Conn
  | [] => Outcome.returned c
  | m :: ms =>
    match c.Write m with
    | Outcome.returned o => o.conn.writeAll ms
    | Outcome.blocked => Outcome.blocked
    | Outcome.panicked text => Outcome.panicked text

/-- The value-level message a memory-level message denotes in a memory. -/
def message.view (h : Heap) (x : message) : Ws.message :=
  ⟨h.load x.content, x.isBinary⟩

/-- The value-level connection a memory-level connection denotes in a memory. -/
def Conn.view (c : Conn) (h : Heap) : Ws.Conn :=
  ⟨c.socket, c.ResponseHeader, c.PingInterval, c.PongTimeout, c.MaxMessageSize,
    c.WriteTimeout, c.messageMode, c.outbox.buf.map (message.view h),
    c.inbox.buf.map (message.view h), c.closeSignal.buf⟩

/-- The zero value `Conn{}`: every channel nil. -/
def zeroConn : Conn :=
  ⟨0, [], 0, 0, 0, 0, 0, ⟨true, false, 0, []⟩, ⟨true, false, 0, []⟩, ⟨true, false, 0, []⟩⟩

/-- A connection for concrete evaluations: given mode and outbox, made and empty
inbox and close channel, other fields fixed. -/
def mkConn (mode : Int) (outbox : Chan message) : Conn :=
  ⟨7, [], 0, 0, 0, 0, mode, outbox, ⟨false, false, 4, []⟩, ⟨false, false, 0, []⟩⟩

/-- A connection in binary mode whose outbox, of capacity 3, holds one text message. -/
def sampleConn : Conn :=
  mkConn 2 ⟨false, false, 3, [⟨⟨0, 0, 1⟩, false⟩]⟩

/-- A memory of two backing arrays. -/
def sampleHeap : Heap :=
  ⟨[[7], [1, 2]]⟩

end Mem

/-! ## Shared lemmas -/

/-- A fresh reader over an empty slice returns `0, io.EOF` and leaves the buffer alone. -/
theorem newReader_read_nil (p : List Byte) :
    (NewReader []).Read p = ⟨⟨[], 0⟩, p, 0, some GoError.EOF⟩ := by
  simp [NewReader, Reader.Read]

/-- A fresh reader over a non-empty slice copies what fits and returns no error. -/
theorem newReader_read_ne (s p : List Byte) (h : s ≠ []) :
    (NewReader s).Read p =
      ⟨⟨s, min p.length s.length⟩,
        s.take (min p.length s.length) ++ p.drop (min p.length s.length),
        min p.length s.length, none⟩ := by
  have hlen : 0 < s.length := List.length_pos.mpr h
  have hge : ¬ (0 ≥ s.length) := by omega
  simp [NewReader, Reader.Read, copy, hge]

/-- The count a fresh reader returns, whatever the slice. -/
theorem newReader_read_n (s p : List Byte) :
    ((NewReader s).Read p).n = min p.length s.length := by
  by_cases h : s = []
  · subst h; simp [newReader_read_nil]
  · simp [newReader_read_ne s p h]

/-- The buffer a fresh reader leaves, whatever the slice. -/
theorem newReader_read_b (s p : List Byte) :
    ((NewReader s).Read p).b =
      s.take (min p.length s.length) ++ p.drop (min p.length s.length) := by
  by_cases h : s = []
  · subst h; simp [newReader_read_nil]
  · simp [newReader_read_ne s p h]

/-- The error a fresh reader returns: `io.EOF` exactly on an empty slice. -/
theorem newReader_read_err (s p : List Byte) :
    ((NewReader s).Read p).err = if s = [] then some GoError.EOF else none := by
  by_cases h : s = []
  · subst h; simp [newReader_read_nil]
  · simp [newReader_read_ne s p h, h]

/-- With a message at the head of the inbox, `Read` returns. -/
theorem read_cons (c : Conn) (msg : message) (rest : List message) (p : List Byte)
    (h : c.inbox = msg :: rest) :
    c.Read p = some ⟨{ c with inbox := rest }, ((NewReader msg.content).Read p).b,
      ((NewReader msg.content).Read p).n, ((NewReader msg.content).Read p).err⟩ := by
  simp [Conn.Read, h]

/-- With a message at the head of the inbox, `ReadMessage` returns. -/
theorem readMessage_cons (c : Conn) (msg : message) (rest : List message) (p : List Byte)
    (h : c.inbox = msg :: rest) :
    c.ReadMessage p = some ⟨{ c with inbox := rest }, ((NewReader msg.content).Read p).b,
      ((NewReader msg.content).Read p).n,
      if msg.content = [] then false else msg.isBinary,
      ((NewReader msg.content).Read p).err⟩ := by
  by_cases hs : msg.content = []
  · simp [Conn.ReadMessage, h, hs, newReader_read_nil]
  · simp [Conn.ReadMessage, h, hs, newReader_read_ne _ p hs]

/-- With a message at the head of the inbox, either receiving call returns, having
removed that message and run a fresh reader over its payload. -/
theorem recv_cons (c : Conn) (msg : message) (rest : List message) (call : RecvCall)
    (h : c.inbox = msg :: rest) :
    c.recv call = some ({ c with inbox := rest },
      ⟨((NewReader msg.content).Read call.buf).b, ((NewReader msg.content).Read call.buf).n,
        ((NewReader msg.content).Read call.buf).err⟩) := by
  cases call with
  | read p => simp [Conn.recv, read_cons c msg rest p h, RecvCall.buf]
  | readMessage p => simp [Conn.recv, readMessage_cons c msg rest p h, RecvCall.buf]

/-- A buffer at least as long as the slice receives the whole slice at its front. -/
theorem newReader_read_fits (s p : List Byte) (h : s.length ≤ p.length) :
    ((NewReader s).Read p).n = s.length ∧
    ((NewReader s).Read p).b.take ((NewReader s).Read p).n = s := by
  have hn : ((NewReader s).Read p).n = s.length := by
    rw [newReader_read_n]; omega
  refine ⟨hn, ?_⟩
  rw [hn, newReader_read_b]
  have hmin : min p.length s.length = s.length := by omega
  rw [hmin, List.take_of_length_le (Nat.le_refl _)]
  simp

/-- A send on a made, open channel with room buffers the element at the tail. -/
theorem mem_send_room {α : Type} (ch : Mem.Chan α) (x : α)
    (hmade : ch.isNil = false) (hopen : ch.closed = false)
    (hroom : ch.buf.length < ch.cap) :
    ch.send x = Mem.Outcome.returned { ch with buf := ch.buf ++ [x] } := by
  simp [Mem.Chan.send, hmade, hopen, hroom]

/-- A send blocks on a nil channel and on a made, open channel that is full, and
panics on a made channel that is closed. -/
theorem mem_send_no_room {α : Type} (ch : Mem.Chan α) (x : α) :
    (ch.isNil = true → ch.send x = Mem.Outcome.blocked) ∧
    (ch.isNil = false → ch.closed = true →
      ch.send x = Mem.Outcome.panicked "send on closed channel") ∧
    (ch.isNil = false → ch.closed = false → ch.cap ≤ ch.buf.length →
      ch.send x = Mem.Outcome.blocked) := by
  refine ⟨fun h => ?_, fun h1 h2 => ?_, fun h1 h2 h3 => ?_⟩
  · simp [Mem.Chan.send, h]
  · simp [Mem.Chan.send, h1, h2]
  · have hfull : ¬ ch.buf.length < ch.cap := by omega
    simp [Mem.Chan.send, h1, h2, hfull]

/-- With room in a made, open outbox, `Write` returns `len(m), nil` and the outbox
has the new message at its tail; nothing else changes. -/
theorem mem_write_room (c : Mem.Conn) (m : Mem.Slice)
    (hmade : c.outbox.isNil = false) (hopen : c.outbox.closed = false)
    (hroom : c.outbox.buf.length < c.outbox.cap) :
    c.Write m = Mem.Outcome.returned
      ⟨{ c with outbox := { c.outbox with
            buf := c.outbox.buf ++ [⟨m, decide (c.messageMode = ModeBinary)⟩] } },
        m.len, none⟩ := by
  simp [Mem.Conn.Write, mem_send_room _ _ hmade hopen hroom, ModeBinary, beq_eq_decide]

/-- With room for all of them in a made, open outbox, writes in sequence all
return and leave their messages at the tail of the outbox in call order. -/
theorem mem_writeAll_room (ms : List Mem.Slice) (c : Mem.Conn)
    (hmade : c.outbox.isNil = false) (hopen : c.outbox.closed = false)
    (hroom : c.outbox.buf.length + ms.length ≤ c.outbox.cap) :
    c.writeAll ms = Mem.Outcome.returned
      { c with outbox := { c.outbox with
          buf := c.outbox.buf ++
            ms.map (fun b => (⟨b, decide (c.messageMode = ModeBinary)⟩ : Mem.message)) } } := by
  induction ms generalizing c with
  | nil => simp [Mem.Conn.writeAll]
  | cons m ms ih =>
    have hlen : (m :: ms).length = ms.length + 1 := rfl
    have hroom1 : c.outbox.buf.length < c.outbox.cap := by omega
    rw [Mem.Conn.writeAll, mem_write_room c m hmade hopen hroom1]
    have hstep := ih
      { c with outbox := { c.outbox with
          buf := c.outbox.buf ++ [⟨m, decide (c.messageMode = ModeBinary)⟩] } }
      hmade hopen (by simp only [List.length_append, List.length_singleton]; omega)
    simp only [hstep]
    simp

/-- A `Write` that returns acts on the value-level view as the value-level
`Write` of the bytes the slice denotes, in whatever memory it is viewed. -/
theorem mem_write_view (c : Mem.Conn) (m : Mem.Slice) (o : Mem.WriteOut) (h : Mem.Heap)
    (hret : c.Write m = Mem.Outcome.returned o) :
    o.conn.view h = ((c.view h).Write (h.load m)).conn ∧
    o.err = ((c.view h).Write (h.load m)).err ∧
    (h.inBounds m → o.n = ((c.view h).Write (h.load m)).n) := by
  unfold Mem.Conn.Write Mem.Chan.send at hret
  by_cases h1 : c.outbox.isNil = true
  · simp [h1] at hret
  · by_cases h2 : c.outbox.closed = true
    · simp [h1, h2] at hret
    · by_cases h3 : c.outbox.buf.length < c.outbox.cap
      · simp [h1, h2, h3] at hret
        subst hret
        refine ⟨?_, rfl, fun hb => ?_⟩
        · simp [Mem.Conn.view, Conn.Write, Mem.message.view]
        · unfold Mem.Heap.inBounds at hb
          simp only [Conn.Write, Mem.Heap.load, List.length_take, List.length_drop]
          omega
      · simp [h1, h2, h3] at hret

/-- The tag `ReadMessage` returns is the tag of the message it consumed, unless
that message is binary with an empty payload. -/
theorem readMessage_tag_unless_empty_binary (c : Conn) (msg : message)
    (rest : List message) (p : List Byte) (h : c.inbox = msg :: rest)
    (hne : ¬ (msg.content = [] ∧ msg.isBinary = true)) :
    ∃ o, c.ReadMessage p = some o ∧ o.isBinary = msg.isBinary := by
  refine ⟨_, readMessage_cons c msg rest p h, ?_⟩
  by_cases hs : msg.content = []
  · have hb : msg.isBinary = false := by
      cases hbin : msg.isBinary
      · rfl
      · exact absurd ⟨hs, hbin⟩ hne
    simp [hs, hb]
  · simp [hs]

/-- The queued message shares its bytes with the caller: after `Write(buf)`,
`buf[0] = 9`, `Write(buf)` on a two-byte `buf` holding 1, 2, both queued messages
denote 9, 2, although the first denoted 1, 2 when it was queued. -/
theorem mem_write_shares_bytes :
    ∃ o1 o2 : Mem.WriteOut,
      (Mem.mkConn 2 ⟨false, false, 2, []⟩).Write ⟨1, 0, 2⟩ = Mem.Outcome.returned o1 ∧
      (o1.conn.view Mem.sampleHeap).outbox = [⟨[1, 2], true⟩] ∧
      o1.conn.Write ⟨1, 0, 2⟩ = Mem.Outcome.returned o2 ∧
      (o2.conn.view (Mem.sampleHeap.store ⟨1, 0, 2⟩ 0 9)).outbox
        = [⟨[9, 2], true⟩, ⟨[9, 2], true⟩] :=
  ⟨⟨Mem.mkConn 2 ⟨false, false, 2, [⟨⟨1, 0, 2⟩, true⟩]⟩, 2, none⟩,
    ⟨Mem.mkConn 2 ⟨false, false, 2, [⟨⟨1, 0, 2⟩, true⟩, ⟨⟨1, 0, 2⟩, true⟩]⟩, 2, none⟩,
    by decide, by decide, by decide, by decide⟩

/-! ## Message mode and `Write` -/

/-- Claim C1: for every connection and every integer `m` that is neither
`ModeBinary` nor `ModeText`, `SetMessageMode m` leaves the message mode (indeed
the whole connection) unchanged, and a `Write` made after it returns and
enqueues exactly what the same `Write` made before it would have, tag included. -/
theorem C1_setMessageMode_invalid_keeps_mode (c : Conn) (m : Int)
    (hb : m ≠ ModeBinary) (ht : m ≠ ModeText) :
    (c.SetMessageMode m).messageMode = c.messageMode ∧
    c.SetMessageMode m = c ∧
    ∀ b : List Byte,
      (c.SetMessageMode m).Write b = c.Write b ∧
      ((c.SetMessageMode m).Write b).conn.outbox =
        c.outbox ++ [⟨b, decide (c.messageMode = ModeBinary)⟩] := by
  have hc : c.SetMessageMode m = c := by simp [Conn.SetMessageMode, hb, ht]
  refine ⟨by rw [hc], hc, fun b => ⟨by rw [hc], ?_⟩⟩
  rw [hc]
  simp [Conn.Write, ModeBinary, beq_eq_decide]

/-- Claim C1 at a concrete input: mode 3 on a connection in binary mode. -/
theorem C1_setMessageMode_invalid_keeps_mode_witness :
    (3 : Int) ≠ ModeBinary ∧ (3 : Int) ≠ ModeText ∧
    (((mkConn 2 [] []).SetMessageMode 3).messageMode = (mkConn 2 [] []).messageMode ∧
    (mkConn 2 [] []).SetMessageMode 3 = mkConn 2 [] [] ∧
    ∀ b : List Byte,
      ((mkConn 2 [] []).SetMessageMode 3).Write b = (mkConn 2 [] []).Write b ∧
      (((mkConn 2 [] []).SetMessageMode 3).Write b).conn.outbox =
        (mkConn 2 [] []).outbox ++ [⟨b, decide ((mkConn 2 [] []).messageMode = ModeBinary)⟩]) :=
  ⟨by decide, by decide,
    C1_setMessageMode_invalid_keeps_mode (mkConn 2 [] []) 3 (by decide) (by decide)⟩

/-- Claim C2 fails as stated: `Write` does not return `(len m, nil)` in every
connection state.  On the zero value of `Conn`, whose outbox is the nil channel,
and on an outbox already holding as many messages as its capacity, the send
blocks and `Write` does not return; on a closed outbox it panics. -/
theorem C2_write_not_total_counterexample :
    Mem.zeroConn.Write ⟨0, 0, 2⟩ = Mem.Outcome.blocked ∧
    (Mem.mkConn 2 ⟨false, false, 1, [⟨⟨0, 0, 1⟩, true⟩]⟩).Write ⟨0, 0, 2⟩
      = Mem.Outcome.blocked ∧
    (Mem.mkConn 2 ⟨false, true, 1, []⟩).Write ⟨0, 0, 2⟩
      = Mem.Outcome.panicked "send on closed channel" ∧
    ¬ (∀ (c : Mem.Conn) (m : Mem.Slice),
        ∃ o : Mem.WriteOut, c.Write m = Mem.Outcome.returned o ∧
          o.n = m.len ∧ o.err = none ∧
          ∃ msg : Mem.message, o.conn.outbox.buf = c.outbox.buf ++ [msg] ∧
            msg.content = m ∧ (msg.isBinary = true ↔ c.messageMode = ModeBinary)) := by
  refine ⟨by decide, by decide, by decide, fun h => ?_⟩
  obtain ⟨o, ho, _⟩ := h Mem.zeroConn ⟨0, 0, 2⟩
  have hval : Mem.zeroConn.Write ⟨0, 0, 2⟩ = Mem.Outcome.blocked := by decide
  rw [hval] at ho
  cases ho

/-- Claim C2, amended: for every connection whose outbox is a made, open channel
with room, and every byte slice `m`, the empty one included, `Write m` returns
`(len m, nil)` and appends exactly one message to the tail of the outbox, whose
payload is the slice `m` and whose tag is binary iff the current mode is
`ModeBinary`; the messages already queued keep their order and content and
nothing else in the connection changes.  With room for all of them, a sequence
of `Write` calls returns with the outbox holding the earlier messages followed
by one message per call, in call order, none merged, and, read in any one
memory, their payloads are those of the slices written, in call order. -/
theorem C2_write_enqueues_one_at_tail (c : Mem.Conn) (m : Mem.Slice) (ms : List Mem.Slice)
    (hmade : c.outbox.isNil = false) (hopen : c.outbox.closed = false)
    (hroom : c.outbox.buf.length < c.outbox.cap)
    (hrooms : c.outbox.buf.length + ms.length ≤ c.outbox.cap) :
    (∃ o : Mem.WriteOut, c.Write m = Mem.Outcome.returned o ∧
      o.n = m.len ∧ o.err = none ∧
      (∃ msg : Mem.message,
        o.conn.outbox.buf = c.outbox.buf ++ [msg] ∧
        msg.content = m ∧
        (msg.isBinary = true ↔ c.messageMode = ModeBinary)) ∧
      o.conn = { c with outbox := { c.outbox with buf := o.conn.outbox.buf } } ∧
      ∀ h : Mem.Heap,
        o.conn.outbox.buf.map (Mem.message.view h)
          = c.outbox.buf.map (Mem.message.view h) ++
              [⟨h.load m, decide (c.messageMode = ModeBinary)⟩]) ∧
    (∃ c1 : Mem.Conn, c.writeAll ms = Mem.Outcome.returned c1 ∧
      c1.outbox.buf = c.outbox.buf ++
        ms.map (fun b => (⟨b, decide (c.messageMode = ModeBinary)⟩ : Mem.message)) ∧
      c1.outbox.buf.length = c.outbox.buf.length + ms.length ∧
      (c1.outbox.buf.drop c.outbox.buf.length).map Mem.message.content = ms ∧
      c1 = { c with outbox := { c.outbox with buf := c1.outbox.buf } } ∧
      ∀ h : Mem.Heap,
        (c1.outbox.buf.drop c.outbox.buf.length).map (fun x => h.load x.content)
          = ms.map h.load) := by
  refine ⟨⟨_, mem_write_room c m hmade hopen hroom, rfl, rfl,
      ⟨⟨m, decide (c.messageMode = ModeBinary)⟩, rfl, rfl, by simp⟩, rfl, fun h => ?_⟩,
    ⟨_, mem_writeAll_room ms c hmade hopen hrooms, rfl, ?_, ?_, rfl, fun h => ?_⟩⟩
  · simp [Mem.message.view]
  · simp
  · simp [Function.comp_def]
  · simp [Function.comp_def]

/-- Claim C2, amended, at a concrete input: an outbox of capacity 3 holding one
message, a two-byte slice written, and a sequence of an empty slice and a
one-byte slice written. -/
theorem C2_write_enqueues_one_at_tail_witness :
    Mem.sampleConn.outbox.isNil = false ∧ Mem.sampleConn.outbox.closed = false ∧
    Mem.sampleConn.outbox.buf.length < Mem.sampleConn.outbox.cap ∧
    Mem.sampleConn.outbox.buf.length + ([⟨1, 2, 0⟩, ⟨1, 1, 1⟩] : List Mem.Slice).length
      ≤ Mem.sampleConn.outbox.cap ∧
    (∃ o : Mem.WriteOut, Mem.sampleConn.Write ⟨1, 0, 2⟩ = Mem.Outcome.returned o ∧
      o.n = (⟨1, 0, 2⟩ : Mem.Slice).len ∧ o.err = none ∧
      (∃ msg : Mem.message,
        o.conn.outbox.buf = Mem.sampleConn.outbox.buf ++ [msg] ∧
        msg.content = ⟨1, 0, 2⟩ ∧
        (msg.isBinary = true ↔ Mem.sampleConn.messageMode = ModeBinary)) ∧
      o.conn = { Mem.sampleConn with
        outbox := { Mem.sampleConn.outbox with buf := o.conn.outbox.buf } } ∧
      ∀ h : Mem.Heap,
        o.conn.outbox.buf.map (Mem.message.view h)
          = Mem.sampleConn.outbox.buf.map (Mem.message.view h) ++
              [⟨h.load ⟨1, 0, 2⟩, decide (Mem.sampleConn.messageMode = ModeBinary)⟩]) ∧
    (∃ c1 : Mem.Conn,
      Mem.sampleConn.writeAll [⟨1, 2, 0⟩, ⟨1, 1, 1⟩] = Mem.Outcome.returned c1 ∧
      c1.outbox.buf = Mem.sampleConn.outbox.buf ++
        ([⟨1, 2, 0⟩, ⟨1, 1, 1⟩] : List Mem.Slice).map
          (fun b => (⟨b, decide (Mem.sampleConn.messageMode = ModeBinary)⟩ : Mem.message)) ∧
      c1.outbox.buf.length = Mem.sampleConn.outbox.buf.length
        + ([⟨1, 2, 0⟩, ⟨1, 1, 1⟩] : List Mem.Slice).length ∧
      (c1.outbox.buf.drop Mem.sampleConn.outbox.buf.length).map Mem.message.content
        = [⟨1, 2, 0⟩, ⟨1, 1, 1⟩] ∧
      c1 = { Mem.sampleConn with
        outbox := { Mem.sampleConn.outbox with buf := c1.outbox.buf } } ∧
      ∀ h : Mem.Heap,
        (c1.outbox.buf.drop Mem.sampleConn.outbox.buf.length).map (fun x => h.load x.content)
          = ([⟨1, 2, 0⟩, ⟨1, 1, 1⟩] : List Mem.Slice).map h.load) :=
  ⟨rfl, rfl, by decide, by decide,
    C2_write_enqueues_one_at_tail Mem.sampleConn ⟨1, 0, 2⟩ [⟨1, 2, 0⟩, ⟨1, 1, 1⟩]
      rfl rfl (by decide) (by decide)⟩

/-- Claim C3: for every connection and every `m` among `ModeBinary` and
`ModeText`, after `SetMessageMode m` the current mode is `m`, and the next
`Write` enqueues at the tail a message tagged binary when `m` is `ModeBinary`
and text when `m` is `ModeText`. -/
theorem C3_setMessageMode_valid_sets_mode (c : Conn) (m : Int)
    (hm : m = ModeBinary ∨ m = ModeText) :
    (c.SetMessageMode m).messageMode = m ∧
    ∀ b : List Byte,
      (m = ModeBinary →
        ((c.SetMessageMode m).Write b).conn.outbox = c.outbox ++ [⟨b, true⟩]) ∧
      (m = ModeText →
        ((c.SetMessageMode m).Write b).conn.outbox = c.outbox ++ [⟨b, false⟩]) := by
  have hmode : (c.SetMessageMode m).messageMode = m := by
    rcases hm with h | h <;> subst h <;> simp [Conn.SetMessageMode]
  have hout : (c.SetMessageMode m).outbox = c.outbox := by
    rcases hm with h | h <;> subst h <;> simp [Conn.SetMessageMode]
  refine ⟨hmode, fun b => ⟨fun h => ?_, fun h => ?_⟩⟩
  · simp only [Conn.Write, hmode, hout]
    subst h
    simp [ModeBinary]
  · simp only [Conn.Write, hmode, hout]
    subst h
    simp [ModeText, TextMessage, BinaryMessage]

/-- Claim C3 at a concrete input: switching a binary connection to text mode. -/
theorem C3_setMessageMode_valid_sets_mode_witness :
    (ModeText = ModeBinary ∨ ModeText = ModeText) ∧
    (((mkConn 2 [⟨[1], true⟩] []).SetMessageMode ModeText).messageMode = ModeText ∧
    ∀ b : List Byte,
      (ModeText = ModeBinary →
        (((mkConn 2 [⟨[1], true⟩] []).SetMessageMode ModeText).Write b).conn.outbox =
          (mkConn 2 [⟨[1], true⟩] []).outbox ++ [⟨b, true⟩]) ∧
      (ModeText = ModeText →
        (((mkConn 2 [⟨[1], true⟩] []).SetMessageMode ModeText).Write b).conn.outbox =
          (mkConn 2 [⟨[1], true⟩] []).outbox ++ [⟨b, false⟩])) :=
  ⟨Or.inr rfl,
    C3_setMessageMode_valid_sets_mode (mkConn 2 [⟨[1], true⟩] []) ModeText (Or.inr rfl)⟩

/-- Claim C4: for every connection and every integer `m`, `SetMessageMode m`
changes nothing but the message mode: the outbox, with the payload and tag of
every queued message, the inbox and every other field are as before, and a later
`Read` or `ReadMessage` returns what it would have returned without the call
(same buffer, count, tag and error), leaving the connection a `SetMessageMode m`
away from the one it would have left. -/
theorem C4_setMessageMode_frame (c : Conn) (m : Int) :
    (c.SetMessageMode m).outbox = c.outbox ∧
    (c.SetMessageMode m).inbox = c.inbox ∧
    (c.SetMessageMode m).closeSignal = c.closeSignal ∧
    (c.SetMessageMode m).socket = c.socket ∧
    (c.SetMessageMode m).ResponseHeader = c.ResponseHeader ∧
    (c.SetMessageMode m).PingInterval = c.PingInterval ∧
    (c.SetMessageMode m).PongTimeout = c.PongTimeout ∧
    (c.SetMessageMode m).MaxMessageSize = c.MaxMessageSize ∧
    (c.SetMessageMode m).WriteTimeout = c.WriteTimeout ∧
    (∀ b : List Byte,
      ((c.Write b).conn.SetMessageMode m).outbox = (c.Write b).conn.outbox) ∧
    ∀ p : List Byte,
      (c.SetMessageMode m).Read p =
        (c.Read p).map (fun o => { o with conn := o.conn.SetMessageMode m }) ∧
      (c.SetMessageMode m).ReadMessage p =
        (c.ReadMessage p).map (fun o => { o with conn := o.conn.SetMessageMode m }) := by
  by_cases hv : m ≠ ModeBinary ∧ m ≠ ModeText
  · have hc : ∀ d : Conn, d.SetMessageMode m = d := fun d => by
      simp [Conn.SetMessageMode, hv.1, hv.2]
    refine ⟨by rw [hc], by rw [hc], by rw [hc], by rw [hc], by rw [hc], by rw [hc],
      by rw [hc], by rw [hc], by rw [hc], fun _ => by rw [hc], fun p => ⟨?_, ?_⟩⟩
    · simp only [hc]
      cases c.Read p <;> rfl
    · simp only [hc]
      cases c.ReadMessage p <;> rfl
  · have hc : ∀ d : Conn, d.SetMessageMode m = { d with messageMode := m } := fun d => by
      unfold Conn.SetMessageMode
      rw [if_neg hv]
    refine ⟨by rw [hc], by rw [hc], by rw [hc], by rw [hc], by rw [hc], by rw [hc],
      by rw [hc], by rw [hc], by rw [hc], fun _ => by rw [hc], fun p => ⟨?_, ?_⟩⟩
    · simp only [hc]
      unfold Conn.Read
      cases c.inbox <;> rfl
    · simp only [hc]
      unfold Conn.ReadMessage
      cases c.inbox with
      | nil => rfl
      | cons msg rest =>
        by_cases hs : msg.content = []
        · simp [hs, newReader_read_nil]
        · simp [hs, newReader_read_ne _ p hs]

/-! ## `Read` and `ReadMessage` -/

/-- Claim C5: for every inbox holding messages in arrival order and every
sequence of as many calls, each a `Read` or a `ReadMessage` with a buffer at
least as long as the payload it meets, all the calls return, the i-th with
`bytesRead` the length of the i-th payload and the first `bytesRead` bytes of its
buffer equal to that payload, and the inbox is empty afterwards: the payloads
come back in arrival order, none skipped, duplicated or truncated. -/
theorem C5_reads_return_payloads_in_order (c : Conn) (calls : List RecvCall)
    (hfit : List.Forall₂ (fun call msg => msg.content.length ≤ call.buf.length)
      calls c.inbox) :
    ∃ (c1 : Conn) (outs : List RecvOut),
      c.recvAll calls = some (c1, outs) ∧
      c1.inbox = [] ∧
      outs.length = c.inbox.length ∧
      List.Forall₂ (fun o msg =>
        o.bytesRead = msg.content.length ∧ o.p.take o.bytesRead = msg.content)
        outs c.inbox ∧
      outs.map (fun o => o.p.take o.bytesRead) = c.inbox.map message.content := by
  generalize hq : c.inbox = q at hfit
  induction hfit generalizing c with
  | nil => exact ⟨c, [], rfl, hq, rfl, List.Forall₂.nil, rfl⟩
  | @cons call msg calls rest hhead _ ih =>
    obtain ⟨c1, outs, hrun, hempty, hlen, hall, hmap⟩ :=
      ih { c with inbox := rest } rfl
    have hfits := newReader_read_fits msg.content call.buf hhead
    refine ⟨c1, (⟨((NewReader msg.content).Read call.buf).b,
      ((NewReader msg.content).Read call.buf).n,
      ((NewReader msg.content).Read call.buf).err⟩ : RecvOut) :: outs,
      ?_, hempty, ?_, List.Forall₂.cons ?_ hall, ?_⟩
    · simp only [Conn.recvAll, recv_cons c msg rest call hq, hrun]
    · simp [hlen]
    · exact hfits
    · simp [hmap, hfits.2]

/-- Claim C5 at a concrete input: a two-byte binary message, an empty text
message and a one-byte text message, met by `Read`, `ReadMessage`, `Read`. -/
theorem C5_reads_return_payloads_in_order_witness :
    ∃ (c1 : Conn) (outs : List RecvOut),
      (mkConn 2 [] [⟨[10, 20], true⟩, ⟨[], false⟩, ⟨[30], false⟩]).recvAll
        [RecvCall.read [0, 0, 0], RecvCall.readMessage [], RecvCall.read [0]]
        = some (c1, outs) ∧
      c1.inbox = [] ∧
      outs.length = (mkConn 2 [] [⟨[10, 20], true⟩, ⟨[], false⟩, ⟨[30], false⟩]).inbox.length ∧
      List.Forall₂ (fun o msg =>
        o.bytesRead = msg.content.length ∧ o.p.take o.bytesRead = msg.content)
        outs (mkConn 2 [] [⟨[10, 20], true⟩, ⟨[], false⟩, ⟨[30], false⟩]).inbox ∧
      outs.map (fun o => o.p.take o.bytesRead)
        = (mkConn 2 [] [⟨[10, 20], true⟩, ⟨[], false⟩, ⟨[30], false⟩]).inbox.map
            message.content :=
  C5_reads_return_payloads_in_order
    (mkConn 2 [] [⟨[10, 20], true⟩, ⟨[], false⟩, ⟨[30], false⟩])
    [RecvCall.read [0, 0, 0], RecvCall.readMessage [], RecvCall.read [0]]
    (List.Forall₂.cons (by decide)
      (List.Forall₂.cons (by decide) (List.Forall₂.cons (by decide) List.Forall₂.nil)))

/-- Claim C6, which the code breaks: `ReadMessage` is to report the tag of the
message it consumed, but its early return on the reader's error comes before the
tag is assigned.  With an empty binary message at the head of the inbox it
consumes the message and returns `(0, false, io.EOF)`: the tag `true` is lost,
so the returned `isBinary` is not the tag of the message for every message. -/
theorem C6_readMessage_drops_tag_of_empty_binary :
    (mkConn 2 [] [⟨[], true⟩]).ReadMessage [0, 0]
      = some ⟨mkConn 2 [] [], [0, 0], 0, false, some GoError.EOF⟩ ∧
    ¬ (∀ (c : Conn) (msg : message) (rest : List message) (p : List Byte),
        c.inbox = msg :: rest →
        ∃ o, c.ReadMessage p = some o ∧ o.isBinary = msg.isBinary) := by
  refine ⟨by decide, fun h => ?_⟩
  obtain ⟨o, ho, htag⟩ := h (mkConn 2 [] [⟨[], true⟩]) ⟨[], true⟩ [] [0, 0] rfl
  have hval : (mkConn 2 [] [⟨[], true⟩]).ReadMessage [0, 0]
      = some ⟨mkConn 2 [] [], [0, 0], 0, false, some GoError.EOF⟩ := by decide
  rw [hval] at ho
  cases ho
  exact absurd htag (by decide)

/-- Claim C7: for every message at the head of the inbox and every buffer `p`,
`Read` and `ReadMessage` both return, both remove exactly that one message and
change nothing else, both return `bytesRead = min (len p) (len payload)` and the
same error, and both leave the same buffer, of the length of `p`, whose first
`bytesRead` bytes are the first `bytesRead` bytes of the payload and whose other
bytes are those of `p`. -/
theorem C7_read_readMessage_agree (c : Conn) (msg : message) (rest : List message)
    (p : List Byte) (h : c.inbox = msg :: rest) :
    ∃ (o1 : ReadOut) (o2 : ReadMessageOut),
      c.Read p = some o1 ∧ c.ReadMessage p = some o2 ∧
      o1.conn = { c with inbox := rest } ∧ o2.conn = { c with inbox := rest } ∧
      o1.bytesRead = min p.length msg.content.length ∧
      o2.bytesRead = min p.length msg.content.length ∧
      o1.err = o2.err ∧
      o1.p = o2.p ∧
      o1.p.length = p.length ∧
      o1.p.take o1.bytesRead = msg.content.take o1.bytesRead ∧
      o1.p.drop o1.bytesRead = p.drop o1.bytesRead := by
  refine ⟨_, _, read_cons c msg rest p h, readMessage_cons c msg rest p h,
    rfl, rfl, newReader_read_n _ _, newReader_read_n _ _, rfl, rfl, ?_, ?_, ?_⟩
  · simp only [newReader_read_b, List.length_append, List.length_take, List.length_drop]
    omega
  · simp only [newReader_read_b, newReader_read_n]
    rw [List.take_append_of_le_length (by simp)]
    simp
  · simp only [newReader_read_b, newReader_read_n]
    rw [List.drop_append_of_le_length (by simp)]
    simp

/-- Claim C7 at a concrete input: a three-byte message read into a two-byte buffer. -/
theorem C7_read_readMessage_agree_witness :
    (mkConn 1 [] [⟨[1, 2, 3], false⟩]).inbox = ⟨[1, 2, 3], false⟩ :: [] ∧
    ∃ (o1 : ReadOut) (o2 : ReadMessageOut),
      (mkConn 1 [] [⟨[1, 2, 3], false⟩]).Read [9, 9] = some o1 ∧
      (mkConn 1 [] [⟨[1, 2, 3], false⟩]).ReadMessage [9, 9] = some o2 ∧
      o1.conn = { mkConn 1 [] [⟨[1, 2, 3], false⟩] with inbox := [] } ∧
      o2.conn = { mkConn 1 [] [⟨[1, 2, 3], false⟩] with inbox := [] } ∧
      o1.bytesRead = min ([9, 9] : List Byte).length (⟨[1, 2, 3], false⟩ : message).content.length ∧
      o2.bytesRead = min ([9, 9] : List Byte).length (⟨[1, 2, 3], false⟩ : message).content.length ∧
      o1.err = o2.err ∧
      o1.p = o2.p ∧
      o1.p.length = ([9, 9] : List Byte).length ∧
      o1.p.take o1.bytesRead = (⟨[1, 2, 3], false⟩ : message).content.take o1.bytesRead ∧
      o1.p.drop o1.bytesRead = ([9, 9] : List Byte).drop o1.bytesRead :=
  ⟨rfl, C7_read_readMessage_agree (mkConn 1 [] [⟨[1, 2, 3], false⟩])
    ⟨[1, 2, 3], false⟩ [] [9, 9] rfl⟩

/-- Claim C9: for every message at the head of the inbox and every buffer
shorter than its payload, `Read` and `ReadMessage` return with a nil error and
`bytesRead = len buffer`, the buffer holding the first `len buffer` bytes of the
payload, and the whole message is gone from the inbox, which is left holding the
messages behind it and nothing of the unread bytes: the next `Read` blocks when
no message is behind, and otherwise returns the start of the next message. -/
theorem C9_short_buffer_drops_remainder (c : Conn) (msg : message) (rest : List message)
    (p : List Byte) (h : c.inbox = msg :: rest) (hshort : p.length < msg.content.length) :
    ∃ (o1 : ReadOut) (o2 : ReadMessageOut),
      c.Read p = some o1 ∧ c.ReadMessage p = some o2 ∧
      o1.conn = { c with inbox := rest } ∧ o2.conn = o1.conn ∧
      o1.bytesRead = p.length ∧ o2.bytesRead = p.length ∧
      o1.err = none ∧ o2.err = none ∧
      o1.p = msg.content.take p.length ∧ o2.p = msg.content.take p.length ∧
      ∀ p2 : List Byte,
        (rest = [] → o1.conn.Read p2 = none) ∧
        (∀ (m2 : message) (rest2 : List message), rest = m2 :: rest2 →
          ∃ o3 : ReadOut, o1.conn.Read p2 = some o3 ∧
            o3.conn.inbox = rest2 ∧
            o3.bytesRead = min p2.length m2.content.length ∧
            o3.p.take o3.bytesRead = m2.content.take o3.bytesRead) := by
  have hne : msg.content ≠ [] := by
    intro hnil
    rw [hnil] at hshort
    exact Nat.not_lt_zero _ hshort
  have hmin : min p.length msg.content.length = p.length := by omega
  have hb : ((NewReader msg.content).Read p).b = msg.content.take p.length := by
    rw [newReader_read_b, hmin]
    simp
  refine ⟨_, _, read_cons c msg rest p h, readMessage_cons c msg rest p h,
    rfl, rfl, ?_, ?_, ?_, ?_, hb, hb, fun p2 => ⟨fun hnil => ?_, fun m2 rest2 hcons => ?_⟩⟩
  · simp only [newReader_read_n]; exact hmin
  · simp only [newReader_read_n]; exact hmin
  · simp [newReader_read_err, hne]
  · simp [newReader_read_err, hne]
  · simp [Conn.Read, hnil]
  · refine ⟨_, read_cons _ m2 rest2 p2 hcons, rfl, newReader_read_n _ _, ?_⟩
    simp only [newReader_read_b, newReader_read_n]
    rw [List.take_append_of_le_length (by simp)]
    simp

/-- Claim C9 at a concrete input: a three-byte message, then a one-byte
message, read into a two-byte buffer. -/
theorem C9_short_buffer_drops_remainder_witness :
    (mkConn 2 [] [⟨[1, 2, 3], true⟩, ⟨[4], true⟩]).inbox = ⟨[1, 2, 3], true⟩ :: [⟨[4], true⟩] ∧
    ([0, 0] : List Byte).length < (⟨[1, 2, 3], true⟩ : message).content.length ∧
    ∃ (o1 : ReadOut) (o2 : ReadMessageOut),
      (mkConn 2 [] [⟨[1, 2, 3], true⟩, ⟨[4], true⟩]).Read [0, 0] = some o1 ∧
      (mkConn 2 [] [⟨[1, 2, 3], true⟩, ⟨[4], true⟩]).ReadMessage [0, 0] = some o2 ∧
      o1.conn = { mkConn 2 [] [⟨[1, 2, 3], true⟩, ⟨[4], true⟩] with inbox := [⟨[4], true⟩] } ∧
      o2.conn = o1.conn ∧
      o1.bytesRead = ([0, 0] : List Byte).length ∧ o2.bytesRead = ([0, 0] : List Byte).length ∧
      o1.err = none ∧ o2.err = none ∧
      o1.p = (⟨[1, 2, 3], true⟩ : message).content.take ([0, 0] : List Byte).length ∧
      o2.p = (⟨[1, 2, 3], true⟩ : message).content.take ([0, 0] : List Byte).length ∧
      ∀ p2 : List Byte,
        (([⟨[4], true⟩] : List message) = [] → o1.conn.Read p2 = none) ∧
        (∀ (m2 : message) (rest2 : List message), [⟨[4], true⟩] = m2 :: rest2 →
          ∃ o3 : ReadOut, o1.conn.Read p2 = some o3 ∧
            o3.conn.inbox = rest2 ∧
            o3.bytesRead = min p2.length m2.content.length ∧
            o3.p.take o3.bytesRead = m2.content.take o3.bytesRead) :=
  ⟨rfl, by decide,
    C9_short_buffer_drops_remainder (mkConn 2 [] [⟨[1, 2, 3], true⟩, ⟨[4], true⟩])
      ⟨[1, 2, 3], true⟩ [⟨[4], true⟩] [0, 0] rfl (by decide)⟩

/-- Claim C10: for every message at the head of the inbox and every buffer,
`Read` and `ReadMessage` return, with a non-nil error if and only if the payload
is empty; that error is `io.EOF`, with `bytesRead = 0` and the buffer untouched,
while the connection has only lost the message; for a non-empty payload the
error is nil, also when the buffer has length 0. -/
theorem C10_error_iff_empty_payload (c : Conn) (msg : message) (rest : List message)
    (p : List Byte) (h : c.inbox = msg :: rest) :
    ∃ (o1 : ReadOut) (o2 : ReadMessageOut),
      c.Read p = some o1 ∧ c.ReadMessage p = some o2 ∧
      (o1.err ≠ none ↔ msg.content = []) ∧
      (o2.err ≠ none ↔ msg.content = []) ∧
      (msg.content = [] →
        o1.err = some GoError.EOF ∧ o1.bytesRead = 0 ∧ o1.p = p ∧
        o2.err = some GoError.EOF ∧ o2.bytesRead = 0 ∧ o2.p = p) ∧
      (msg.content ≠ [] → o1.err = none ∧ o2.err = none) ∧
      (msg.content ≠ [] → p = [] →
        o1.err = none ∧ o1.bytesRead = 0 ∧ o2.err = none ∧ o2.bytesRead = 0) ∧
      o1.conn = { c with inbox := rest } ∧ o2.conn = { c with inbox := rest } := by
  refine ⟨_, _, read_cons c msg rest p h, readMessage_cons c msg rest p h,
    ?_, ?_, fun hs => ?_, fun hs => ?_, fun hs hp => ?_, rfl, rfl⟩
  · by_cases hs : msg.content = [] <;> simp [newReader_read_err, hs]
  · by_cases hs : msg.content = [] <;> simp [newReader_read_err, hs]
  · simp [hs, newReader_read_nil]
  · simp [hs, newReader_read_err]
  · subst hp
    simp [hs, newReader_read_err, newReader_read_n]

/-- Claim C10 at a concrete input: an empty text message read into a
three-byte buffer. -/
theorem C10_error_iff_empty_payload_witness :
    (mkConn 1 [] [⟨[], false⟩, ⟨[8], false⟩]).inbox = ⟨[], false⟩ :: [⟨[8], false⟩] ∧
    ∃ (o1 : ReadOut) (o2 : ReadMessageOut),
      (mkConn 1 [] [⟨[], false⟩, ⟨[8], false⟩]).Read [1, 2, 3] = some o1 ∧
      (mkConn 1 [] [⟨[], false⟩, ⟨[8], false⟩]).ReadMessage [1, 2, 3] = some o2 ∧
      (o1.err ≠ none ↔ (⟨[], false⟩ : message).content = []) ∧
      (o2.err ≠ none ↔ (⟨[], false⟩ : message).content = []) ∧
      ((⟨[], false⟩ : message).content = [] →
        o1.err = some GoError.EOF ∧ o1.bytesRead = 0 ∧ o1.p = [1, 2, 3] ∧
        o2.err = some GoError.EOF ∧ o2.bytesRead = 0 ∧ o2.p = [1, 2, 3]) ∧
      ((⟨[], false⟩ : message).content ≠ [] → o1.err = none ∧ o2.err = none) ∧
      ((⟨[], false⟩ : message).content ≠ [] → ([1, 2, 3] : List Byte) = [] →
        o1.err = none ∧ o1.bytesRead = 0 ∧ o2.err = none ∧ o2.bytesRead = 0) ∧
      o1.conn = { mkConn 1 [] [⟨[], false⟩, ⟨[8], false⟩] with inbox := [⟨[8], false⟩] } ∧
      o2.conn = { mkConn 1 [] [⟨[], false⟩, ⟨[8], false⟩] with inbox := [⟨[8], false⟩] } :=
  ⟨rfl, C10_error_iff_empty_payload (mkConn 1 [] [⟨[], false⟩, ⟨[8], false⟩])
    ⟨[], false⟩ [⟨[8], false⟩] [1, 2, 3] rfl⟩

end Ws
